import Mathlib

/-!
Shallow embedding of the SSA-to-SSA lowering core of `cl/compile.go`
(package `cl` of the llgo repository) and proofs of the specification
claims about it.

The source-side data (go/ssa values, instructions, blocks, functions,
package members) is embedded as inductive types; the target-IR builder
(package `llssa`, out of scope for this core) is embedded as an explicit
state holding the declared entities and the trace of emitted operations.
Go panics are embedded as `Except.error` carrying the panic message, so a
translation either produces a complete package value or no package at all.
-/

namespace Llgo

/-- Target-IR type descriptors are opaque to this core (the spec assumes a
provided `TypeOf` mapping); we carry them as strings. -/
abbrev Typ := String

/-- A typed source constant: `*ssa.Const` exposes its (possibly absent)
constant value and its type. -/
structure ConstVal where
  value : Option String
  typ : Typ
deriving DecidableEq, Repr

/-- The part of `*ssa.Function` consulted when the function occurs as a
value: its name, package path, receiver presence and declared parameter
names (`fn.Signature`). -/
structure FuncRef where
  name : String
  pkgPath : String
  hasRecv : Bool
  paramNames : List String
deriving DecidableEq, Repr

/-- The part of `*ssa.Global` consulted when the global occurs as a value. -/
structure GlobalRef where
  name : String
  pkgPath : String
deriving DecidableEq, Repr

/-- A target-IR expression handle (`llssa.Expr`). `reg n` is the value
produced by the n-th value-producing builder call; `nilE` is the zero
value of `llssa.Expr` (returned by the early `return` for unsafe-init
calls). -/
inductive Expr where
  | reg (n : Nat)
  | fnE (name : String)
  | gblE (name : String)
  | constE (value : Option String) (t : Typ)
  | paramE (idx : Nat)
  | nullE (t : Typ)
  | nilE
deriving DecidableEq, Repr

mutual
/-- A source SSA value (`ssa.Value`): either an instruction that also
produces a value (`instrAndValue`, carried with its identity `id`), a
parameter (carried with its parent's parameter identities, mirroring the
positional search over `fn.Params`), a function, a global, a typed
constant, or a value kind this core has no rule for. -/
inductive GoValue where
  | iv (id : Nat) (k : IVKind)
  | param (parentParams : List Nat) (selfId : Nat)
  | fnVal (fr : FuncRef)
  | gblVal (gr : GlobalRef)
  | constVal (c : ConstVal)
  | unknownV (kind : String)
deriving DecidableEq, Repr

/-- Payload of an instruction that produces a value: the cases of the
type switch in `compileInstrAndValue` (`*ssa.Call`, `*ssa.BinOp`,
`*ssa.UnOp`, `*ssa.IndexAddr`, `*ssa.Alloc`) plus a constructor for any
value-producing instruction kind with no lowering rule. -/
inductive IVKind where
  | call (callee : GoValue) (args : GoValueList)
  | binO (op : String) (x y : GoValue)
  | unO (op : String) (x : GoValue)
  | idxAddr (x idx : GoValue)
  | allocI (t : Typ) (heap : Bool)
  | unknownIV (kind : String)
deriving DecidableEq, Repr

/-- Argument lists of calls, as a dedicated list type so that the
compile functions recurse structurally over the mutual family. -/
inductive GoValueList where
  | nil
  | cons (v : GoValue) (vs : GoValueList)
deriving DecidableEq, Repr
end

/-- Length of an argument list (`len(call.Args)`). -/
def GoValueList.length : GoValueList → Nat
  | .nil => 0
  | .cons _ vs => vs.length + 1

/-- Appending argument lists (used only to state theorems about calls
whose trailing argument is singled out). -/
def GoValueList.append : GoValueList → GoValueList → GoValueList
  | .nil, ys => ys
  | .cons x xs, ys => .cons x (xs.append ys)

/-- A source SSA instruction (`ssa.Instruction`): the `instrAndValue`
case plus the cases of the type switch in `compileInstr` (`*ssa.Store`,
`*ssa.Jump`, `*ssa.Return`, `*ssa.If`) and a constructor for any pure
instruction kind with no lowering rule. `jump`/`ifI` carry the successor
block indices of the instruction's parent block (`v.Block().Succs`). -/
inductive GoInstr where
  | ivInstr (id : Nat) (k : IVKind)
  | store (addr val : GoValue)
  | jump (succs : List Nat)
  | ret (results : List GoValue)
  | ifI (cond : GoValue) (succs : List Nat)
  | unknownI (kind : String)
deriving DecidableEq, Repr

/-- A source basic block (`*ssa.BasicBlock`): its index and ordered
instruction list. -/
structure GoBlock where
  index : Nat
  instrs : List GoInstr
deriving DecidableEq, Repr

/-- A source function member (`*ssa.Function` as a package member): its
signature data, the identities of `f.Params`, whether it has unbound type
parameters (`TypeParams() != nil`), its blocks and its source position. -/
structure GoFunction where
  ref : FuncRef
  paramIds : List Nat
  typeParams : Bool
  blocks : List GoBlock
  pos : Nat
deriving DecidableEq, Repr

/-- A source global member (`*ssa.Global`). -/
structure GoGlobal where
  name : String
  pkgPath : String
  typ : Typ
  pos : Nat
deriving DecidableEq, Repr

/-- A package member (`ssa.Member`): function, type, global, or named
constant (the member switch in `NewPackage` has no case for constants, so
they are skipped silently). Non-function members carry just the data the
driver consults. -/
inductive Member where
  | fnM (f : GoFunction)
  | typeM (pos : Nat)
  | gblM (g : GoGlobal)
  | constM (pos : Nat)
deriving DecidableEq, Repr

/-- `Member.Pos()`, used for the deterministic sort. -/
def memberPos : Member → Nat
  | .fnM f => f.pos
  | .typeM p => p
  | .gblM g => g.pos
  | .constM p => p

/-- A source package (`*ssa.Package`): name, import path and the member
map, carried as a list in an arbitrary iteration order. -/
structure GoPackage where
  name : String
  path : String
  members : List (String × Member)
deriving DecidableEq, Repr

-- -----------------------------------------------------------------------------
-- Function classifier (`funcKind` and the `fnNormal`/`fnHasVArg`/`fnUnsafeInit`
-- constants, declared by `iota`).

def fnNormal : Nat := 0
def fnHasVArg : Nat := 1
def fnUnsafeInit : Nat := 2

/-- Modelled from the spec: the reserved variadic-marker parameter name,
constant `llssa.NameValist` of the target-IR library (its definition is
outside this core; only its role as a reserved name matters here). -/
def NameValist : String := "__llgo_va_list"

/-- `funcKind`: classify a callable value. A receiver-less function with
zero parameters named `init` in package `unsafe` is `fnUnsafeInit`; a
receiver-less function whose last declared parameter bears the reserved
variadic-marker name is `fnHasVArg`; everything else is `fnNormal`. -/
def funcKind (vfn : GoValue) : Nat :=
  match vfn with
  | .fnVal fr =>
    if fr.hasRecv then fnNormal
    else
      let n := fr.paramNames.length
      if n = 0 then
        if fr.name = "init" && fr.pkgPath = "unsafe" then fnUnsafeInit
        else fnNormal
      else
        if fr.paramNames.getLast? = some NameValist then fnHasVArg
        else fnNormal
  | _ => fnNormal

-- -----------------------------------------------------------------------------
-- Target-IR builder state (the observable effects of the `llssa` calls this
-- core makes: declared entities and the trace of emitted operations).

/-- An emitted target-IR operation (one builder instruction-construction
call). -/
inductive Op where
  | callO (f : Expr) (args : List Expr)
  | binOpO (op : String) (x y : Expr)
  | unOpO (op : String) (x : Expr)
  | idxAddrO (x i : Expr)
  | allocO (t : Typ) (heap : Bool)
  | storeO (ptr val : Expr)
  | jumpO (dst : Nat)
  | retO (results : List Expr)
  | ifO (cond : Expr) (thenB elseB : Nat)
deriving DecidableEq, Repr

/-- One entry of the emission trace: which function and block the builder
was positioned on, and the operation emitted there. -/
structure EmitOp where
  fn : String
  blk : Nat
  op : Op
deriving DecidableEq, Repr

/-- A declared global together with its zero-value initializer
(`pkg.NewVar` followed by `g.Init(prog.Null(g.Type))`). -/
structure GlobalDecl where
  name : String
  typ : Typ
  initVal : Expr
deriving DecidableEq, Repr

/-- State of the declare phase: the functions and globals declared so far
in the target-IR package, in declaration order. -/
structure DeclState where
  funcs : List String
  globals : List GlobalDecl
deriving DecidableEq, Repr

/-- Read-only environment of the body-build phase: the link-name mapping
(`p.link`, populated before bodies are built) and the registries of the
declared entities (`p.pkg`), which the body phase only reads. -/
structure Env where
  link : List (String × String)
  funcs : List String
  gblNames : List String
deriving DecidableEq, Repr

/-- Mutable state of the body-build phase: the current function (`p.fn`),
the builder's current block, the block-value cache (`p.bvals`), the block
skeletons allocated by `MakeBlocks`, the emission trace, and the counter
for fresh value-producing results. -/
structure EmitState where
  curFn : Option String
  curBlk : Nat
  bvals : List (Nat × Expr)
  blocksMade : List (String × Nat)
  ops : List EmitOp
  nextReg : Nat
deriving DecidableEq, Repr

/-- Emit an operation that produces no value. -/
def emitOp (st : EmitState) (op : Op) : EmitState :=
  { st with ops := st.ops ++ [⟨st.curFn.getD "", st.curBlk, op⟩] }

/-- Emit a value-producing operation and return the fresh result handle. -/
def emitExpr (st : EmitState) (op : Op) : Expr × EmitState :=
  (.reg st.nextReg,
   { st with ops := st.ops ++ [⟨st.curFn.getD "", st.curBlk, op⟩],
             nextReg := st.nextReg + 1 })

/-- Lookup in the block-value cache (`p.bvals[iv]`, keyed by instruction
identity). -/
def lookupCache : List (Nat × Expr) → Nat → Option Expr
  | [], _ => none
  | (k, e) :: rest, id => if k = id then some e else lookupCache rest id

/-- Lookup in an association list of strings (used for `p.link`). -/
def lookupStr : List (String × String) → String → Option String
  | [], _ => none
  | (k, v) :: rest, s => if k = s then some v else lookupStr rest s

/-- `fullName`: the qualified name of a package member. Modelled from the
spec: a qualified source name `pkgPath.nameInPkg` (the definition lives in
a sibling file of package `cl` not under src/). -/
def fullName (pkgPath name : String) : String := pkgPath ++ "." ++ name

/-- `p.funcName`: the target-IR name of a function. Modelled from the
spec: the link-name mapping takes precedence over the qualified name (the
definition lives in a sibling file of package `cl` not under src/). -/
def funcName (link : List (String × String)) (fr : FuncRef) : String :=
  match lookupStr link (fullName fr.pkgPath fr.name) with
  | some v => v
  | none => fullName fr.pkgPath fr.name

/-- Positional search of a parameter among its parent's parameters
(the loop over `fn.Params` in `compileValue`). -/
def paramIdx : List Nat → Nat → Option Nat
  | [], _ => none
  | p :: ps, pid => if p = pid then some 0 else (paramIdx ps pid).map (· + 1)

/-- `p.compileVArg`: variadic packing of the trailing argument of a call
to a `fnHasVArg` callee. A constant carrying no value contributes zero
extra expressions; every other shape panics `todo`. -/
def compileVArg (st : EmitState) (ret : List Expr) (v : GoValue) :
    Except String (List Expr × EmitState) :=
  match v with
  | .constVal c => if c.value = none then .ok (ret, st) else .error "todo"
  | _ => .error "todo"

/-- The tail step of `p.compileValues`: when `hasVArg > 0`, hand the
argument at position `n` (the head of the unconsumed remainder) to
`compileVArg`; indexing past the end of the argument list fails like the
corresponding Go indexing panic. -/
def packVArg (st : EmitState) (ret : List Expr) (rest : GoValueList)
    (hasVArg : Nat) : Except String (List Expr × EmitState) :=
  if 0 < hasVArg then
    match rest with
    | .cons last _ => compileVArg st ret last
    | .nil => .error "runtime error: index out of range"
  else .ok (ret, st)

mutual
/-- `p.compileValue`: map a source value to a target-IR expression.
Instructions that produce values dispatch to `compileIV`; parameters are
resolved positionally; functions and globals are resolved through the
declaration registries (`p.funcOf` / `p.varOf`, modelled from the spec as
registry lookups that fail when the entity was never declared, their
definitions living outside src/); constants become target literals; any
other value kind panics with its concrete kind. -/
def compileValue (env : Env) (st : EmitState) : GoValue →
    Except String (Expr × EmitState)
  | .iv id k => compileIV env st id k
  | .param parentParams selfId =>
    match paramIdx parentParams selfId with
    | some idx => .ok (.paramE idx, st)
    | none => .error "compileValue: unknown value - *ssa.Parameter\n"
  | .fnVal fr =>
    let name := funcName env.link fr
    if env.funcs.contains name then .ok (.fnE name, st)
    else .error ("funcOf: function not declared - " ++ name)
  | .gblVal gr =>
    let name := fullName gr.pkgPath gr.name
    if env.gblNames.contains name then .ok (.gblE name, st)
    else .error ("varOf: global not declared - " ++ name)
  | .constVal c => .ok (.constE c.value c.typ, st)
  | .unknownV kind => .error ("compileValue: unknown value - " ++ kind ++ "\n")

/-- `p.compileInstrAndValue`: lower a value-producing instruction, at most
once per block. A cached instruction returns its cached expression; a call
to an `fnUnsafeInit` callee returns early (zero `llssa.Expr`, nothing
emitted, nothing cached); every other supported case lowers its operands,
emits one operation and caches the produced expression; unknown kinds
panic. The argument lowering of the call case is `compileValues` inlined
(so that the recursion stays structural); `compileIV_call` below proves
the two presentations equal. -/
def compileIV (env : Env) (st : EmitState) (id : Nat) (k : IVKind) :
    Except String (Expr × EmitState) :=
  match lookupCache st.bvals id with
  | some v => .ok (v, st)
  | none =>
    match k with
    | .call callee args =>
      let kind := funcKind callee
      if kind = fnUnsafeInit then .ok (.nilE, st)
      else
        match compileValue env st callee with
        | .error e => .error e
        | .ok (fe, st1) =>
          let n : Int := (args.length : Int) - (kind : Int)
          if n < 0 then .error "runtime error: makeslice: len out of range"
          else
            match compileValuesAux env st1 args n.toNat with
            | .error e => .error e
            | .ok (pre, rest, st2) =>
              match packVArg st2 pre rest kind with
              | .error e => .error e
              | .ok (argEs, st3) =>
                let (r, st4) := emitExpr st3 (.callO fe argEs)
                .ok (r, { st4 with bvals := (id, r) :: st4.bvals })
    | .binO op x y =>
      match compileValue env st x with
      | .error e => .error e
      | .ok (xe, st1) =>
        match compileValue env st1 y with
        | .error e => .error e
        | .ok (ye, st2) =>
          let (r, st3) := emitExpr st2 (.binOpO op xe ye)
          .ok (r, { st3 with bvals := (id, r) :: st3.bvals })
    | .unO op x =>
      match compileValue env st x with
      | .error e => .error e
      | .ok (xe, st1) =>
        let (r, st2) := emitExpr st1 (.unOpO op xe)
        .ok (r, { st2 with bvals := (id, r) :: st2.bvals })
    | .idxAddr x idx =>
      match compileValue env st x with
      | .error e => .error e
      | .ok (xe, st1) =>
        match compileValue env st1 idx with
        | .error e => .error e
        | .ok (ie, st2) =>
          let (r, st3) := emitExpr st2 (.idxAddrO xe ie)
          .ok (r, { st3 with bvals := (id, r) :: st3.bvals })
    | .allocI t heap =>
      let (r, st1) := emitExpr st (.allocO t heap)
      .ok (r, { st1 with bvals := (id, r) :: st1.bvals })
    | .unknownIV kind =>
      .error ("compileInstrAndValue: unknown instr - " ++ kind ++ "\n")

/-- The loop of `p.compileValues` that lowers the first `n` arguments
positionally, in order, returning also the unconsumed remainder of the
argument list. -/
def compileValuesAux (env : Env) (st : EmitState) :
    GoValueList → Nat → Except String (List Expr × GoValueList × EmitState)
  | rest, 0 => .ok ([], rest, st)
  | .nil, _ + 1 => .error "runtime error: index out of range"
  | .cons v vs, n + 1 =>
    match compileValue env st v with
    | .error e => .error e
    | .ok (x, st1) =>
      match compileValuesAux env st1 vs n with
      | .error e => .error e
      | .ok (xs, rest, st2) => .ok (x :: xs, rest, st2)
end

/-- `p.compileValues`: lower a call's argument list. The non-variadic
count is the argument count minus `hasVArg` (the classifier's tag value);
a negative count fails like Go's `make` with a negative length; when
`hasVArg > 0` the argument at that position is handed to the variadic
packing step. -/
def compileValues (env : Env) (st : EmitState) (vals : GoValueList)
    (hasVArg : Nat) : Except String (List Expr × EmitState) :=
  let n : Int := (vals.length : Int) - (hasVArg : Int)
  if n < 0 then .error "runtime error: makeslice: len out of range"
  else
    match compileValuesAux env st vals n.toNat with
    | .error e => .error e
    | .ok (ret, rest, st1) => packVArg st1 ret rest hasVArg

/-- The call case of `compileIV` is exactly `compileValue` on the callee
followed by `compileValues` on the arguments (the inlining in `compileIV`
changes nothing). -/
theorem compileIV_call (env : Env) (st : EmitState) (id : Nat)
    (callee : GoValue) (args : GoValueList)
    (hc : lookupCache st.bvals id = none)
    (hk : funcKind callee ≠ fnUnsafeInit) :
    compileIV env st id (.call callee args) =
      match compileValue env st callee with
      | .error e => .error e
      | .ok (fe, st1) =>
        match compileValues env st1 args (funcKind callee) with
        | .error e => .error e
        | .ok (argEs, st2) =>
          let (r, st3) := emitExpr st2 (.callO fe argEs)
          .ok (r, { st3 with bvals := (id, r) :: st3.bvals }) := by
  rw [compileIV, hc]
  simp only [if_neg hk, compileValues]
  cases compileValue env st callee with
  | error e => rfl
  | ok p =>
    obtain ⟨fe, st1⟩ := p
    by_cases hn : ((args.length : Int) - (funcKind callee : Int)) < 0
    · simp [hn]
    · simp only [if_neg hn]
      cases compileValuesAux env st1 args
          ((args.length : Int) - (funcKind callee : Int)).toNat with
      | error e => rfl
      | ok t => rfl

-- -----------------------------------------------------------------------------
-- Instruction lowering and block/function building.

/-- The loop of the `*ssa.Return` case: lower the result values in source
order. -/
def compileRets (env : Env) (st : EmitState) : List GoValue →
    Except String (List Expr × EmitState)
  | [] => .ok ([], st)
  | v :: vs =>
    match compileValue env st v with
    | .error e => .error e
    | .ok (x, st1) =>
      match compileRets env st1 vs with
      | .error e => .error e
      | .ok (xs, st2) => .ok (x :: xs, st2)

/-- `p.compileInstr`: lower one source instruction. An `instrAndValue`
dispatches to `compileIV` (result discarded here); stores, jumps, returns
and conditional branches emit their operation; any other instruction kind
panics with its concrete kind. -/
def compileInstr (env : Env) (st : EmitState) (instr : GoInstr) :
    Except String EmitState :=
  match instr with
  | .ivInstr id k =>
    match compileIV env st id k with
    | .error e => .error e
    | .ok (_, st1) => .ok st1
  | .store addr val =>
    match compileValue env st addr with
    | .error e => .error e
    | .ok (pe, st1) =>
      match compileValue env st1 val with
      | .error e => .error e
      | .ok (ve, st2) => .ok (emitOp st2 (.storeO pe ve))
  | .jump succs =>
    match succs.head? with
    | some d => .ok (emitOp st (.jumpO d))
    | none => .error "runtime error: index out of range"
  | .ret results =>
    match compileRets env st results with
    | .error e => .error e
    | .ok (es, st1) => .ok (emitOp st1 (.retO es))
  | .ifI cond succs =>
    match compileValue env st cond with
    | .error e => .error e
    | .ok (ce, st1) =>
      match succs with
      | tb :: eb :: _ => .ok (emitOp st1 (.ifO ce tb eb))
      | _ => .error "runtime error: index out of range"
  | .unknownI kind => .error ("compileInstr: unknown instr - " ++ kind ++ "\n")

/-- The sweep of `p.compileBlock` over the block's instruction list. -/
def compileInstrList (env : Env) (st : EmitState) : List GoInstr →
    Except String EmitState
  | [] => .ok st
  | instr :: rest =>
    match compileInstr env st instr with
    | .error e => .error e
    | .ok st1 => compileInstrList env st1 rest

/-- `p.compileBlock`: position the builder on the target block of the same
index, reset the block-value cache, emit the aggregated-initializer call
first when `doInit` holds (`p.pkg.FuncOf("main.init")` is modelled from
the spec as the handle of the aggregated package initializer; its
definition lives in the target-IR library), then sweep the instructions.
Returns the target block handle. -/
def compileBlock (env : Env) (st : EmitState) (blk : GoBlock)
    (doInit : Bool) : Except String (Nat × EmitState) :=
  let st1 := { st with curBlk := blk.index, bvals := [] }
  let st2 := if doInit then (emitExpr st1 (.callO (.fnE "main.init") [])).2
             else st1
  match compileInstrList env st2 blk.instrs with
  | .error e => .error e
  | .ok st3 => .ok (blk.index, st3)

/-- The loop of the deferred body builder over `f.Blocks`: block at
position `i` is built with `doInit = (i == 0 && name == "main")`. -/
def compileBlocksAux (env : Env) (st : EmitState) (name : String) :
    List GoBlock → Nat → Except String EmitState
  | [], _ => .ok st
  | blk :: blks, i =>
    match compileBlock env st blk (i == 0 && name == "main") with
    | .error e => .error e
    | .ok (_, st1) => compileBlocksAux env st1 name blks (i + 1)

/-- A deferred unit of body-build work registered by `compileFunc`
(`p.inits`): the declared target function's name and the source
definition, per the spec's queue-of-pending-bodies reading of the closure
capture. -/
structure InitRec where
  fname : String
  f : GoFunction
deriving DecidableEq, Repr

/-- The body of one deferred unit of work: set the current function, skip
external (block-less) functions, allocate the block skeleton
(`MakeBlocks`), build every block in order, and clear the current
function again. -/
def runBody (env : Env) (st : EmitState) (r : InitRec) :
    Except String EmitState :=
  let st0 := { st with curFn := some r.fname }
  if r.f.blocks.isEmpty then .ok { st0 with curFn := none }
  else
    let st1 := { st0 with
      blocksMade := st0.blocksMade ++ [(r.fname, r.f.blocks.length)] }
    match compileBlocksAux env st1 r.fname r.f.blocks 0 with
    | .error e => .error e
    | .ok st2 => .ok { st2 with curFn := none }

/-- The second loop of `NewPackage`: execute every deferred body-build
unit of work, in registration order. -/
def runInits (env : Env) (st : EmitState) : List InitRec →
    Except String EmitState
  | [] => .ok st
  | r :: rs =>
    match runBody env st r with
    | .error e => .error e
    | .ok st1 => runInits env st1 rs

-- -----------------------------------------------------------------------------
-- Declare phase and the package driver.

/-- `p.compileFunc`: declare the function under its target name
(`pkg.NewFunc`) and register its body build as deferred work. -/
def compileFunc (link : List (String × String)) (ds : DeclState)
    (inits : List InitRec) (f : GoFunction) : DeclState × List InitRec :=
  let name := funcName link f.ref
  ({ ds with funcs := ds.funcs ++ [name] }, inits ++ [⟨name, f⟩])

/-- `p.compileGlobal`: declare the global under its qualified name and
initialize it to the zero value of its type. -/
def compileGlobal (ds : DeclState) (g : GoGlobal) : DeclState :=
  let name := fullName g.pkgPath g.name
  { ds with globals := ds.globals ++ [⟨name, g.typ, .nullE g.typ⟩] }

/-- `p.compileType`: unimplemented — panics `todo`. -/
def compileType (_ds : DeclState) (_pos : Nat) : Except String DeclState :=
  .error "todo"

/-- One iteration of the member loop of `NewPackage`: generic
(non-instantiated) functions are skipped, other functions are declared
with their body deferred, types hit the unimplemented `compileType`,
globals are declared and zero-initialized, and named constants fall
through the switch untouched. -/
def declMember (link : List (String × String))
    (acc : DeclState × List InitRec) (nm : String × Member) :
    Except String (DeclState × List InitRec) :=
  match nm.2 with
  | .fnM f =>
    if f.typeParams then .ok acc
    else .ok (compileFunc link acc.1 acc.2 f)
  | .typeM p =>
    match compileType acc.1 p with
    | .error e => .error e
    | .ok ds => .ok (ds, acc.2)
  | .gblM g => .ok (compileGlobal acc.1 g, acc.2)
  | .constM _ => .ok acc

/-- The member loop of `NewPackage` over the sorted members. -/
def declLoop (link : List (String × String))
    (acc : DeclState × List InitRec) : List (String × Member) →
    Except String (DeclState × List InitRec)
  | [] => .ok acc
  | nm :: rest =>
    match declMember link acc nm with
    | .error e => .error e
    | .ok acc1 => declLoop link acc1 rest

/-- The comparison of the member sort: ascending source position. -/
def memberLE (a b : String × Member) : Prop := memberPos a.2 ≤ memberPos b.2

instance : DecidableRel memberLE := fun a b =>
  inferInstanceAs (Decidable (memberPos a.2 ≤ memberPos b.2))

/-- The member sort of `NewPackage`: order the members of the package by
source position, ascending (ties between distinct positions do not arise
on well-formed input). -/
def sortMembers (ms : List (String × Member)) : List (String × Member) :=
  List.insertionSort memberLE ms

/-- The empty declaration state of a fresh target package. -/
def emptyDecl : DeclState := ⟨[], []⟩

/-- The initial body-build state (no current function, nothing emitted). -/
def emptyEmit : EmitState := ⟨none, 0, [], [], [], 0⟩

/-- The read-only body-phase environment assembled from the completed
declare phase. -/
def mkEnv (link : List (String × String)) (ds : DeclState) : Env :=
  ⟨link, ds.funcs, ds.globals.map (·.name)⟩

/-- The completed translation of one package: name and import path carried
over verbatim, the declared entities, and the body-build trace. -/
structure PkgResult where
  pname : String
  ppath : String
  decls : DeclState
  build : EmitState
deriving DecidableEq, Repr

/-- `NewPackage`: translate one source package. Sort the members by
source position; declare every member in sorted order, deferring function
bodies; then execute every deferred body in registration order. A panic
anywhere aborts the whole translation with no package returned. (The
link-name mapping extracted from the source files by `initFiles` — whose
definition lives outside src/ — is taken here as an input.) -/
def NewPackage (pkg : GoPackage) (link : List (String × String)) :
    Except String PkgResult :=
  let members := sortMembers pkg.members
  match declLoop link (emptyDecl, []) members with
  | .error e => .error e
  | .ok (ds, inits) =>
    match runInits (mkEnv link ds) emptyEmit inits with
    | .error e => .error e
    | .ok es => .ok ⟨pkg.name, pkg.path, ds, es⟩

-- -----------------------------------------------------------------------------
-- Claims.

/-- Claim C5: the Function Classifier returns exactly one of three kinds
for every callable value: `fnUnsafeInit` iff the callee is a receiver-less
function with zero parameters literally named `init` in the `unsafe`
intrinsics package; `fnHasVArg` iff the callee is a receiver-less function
whose final declared parameter bears the reserved variadic-marker name;
methods (callables with a receiver) and all other values are `fnNormal`. -/
theorem claim_C5 (v : GoValue) :
    (funcKind v = fnUnsafeInit ↔ ∃ fr, v = .fnVal fr ∧ fr.hasRecv = false ∧
       fr.paramNames = [] ∧ fr.name = "init" ∧ fr.pkgPath = "unsafe")
  ∧ (funcKind v = fnHasVArg ↔ ∃ fr, v = .fnVal fr ∧ fr.hasRecv = false ∧
       fr.paramNames ≠ [] ∧ fr.paramNames.getLast? = some NameValist)
  ∧ (funcKind v = fnNormal ∨ funcKind v = fnHasVArg ∨
       funcKind v = fnUnsafeInit)
  ∧ (∀ fr, v = .fnVal fr → fr.hasRecv = true → funcKind v = fnNormal) := by
  cases v with
  | fnVal fr =>
    obtain ⟨nm, pp, rcv, ps⟩ := fr
    cases rcv with
    | true => simp [funcKind, fnNormal, fnHasVArg, fnUnsafeInit]
    | false =>
      cases ps with
      | nil =>
        by_cases h1 : nm = "init" <;> by_cases h2 : pp = "unsafe" <;>
          simp [funcKind, fnNormal, fnHasVArg, fnUnsafeInit, h1, h2]
      | cons p ps' =>
        by_cases h : (p :: ps').getLast? = some NameValist <;>
          simp [funcKind, fnNormal, fnHasVArg, fnUnsafeInit, h]
  | iv id k => simp [funcKind, fnNormal, fnHasVArg, fnUnsafeInit]
  | param a b => simp [funcKind, fnNormal, fnHasVArg, fnUnsafeInit]
  | gblVal g => simp [funcKind, fnNormal, fnHasVArg, fnUnsafeInit]
  | constVal c => simp [funcKind, fnNormal, fnHasVArg, fnUnsafeInit]
  | unknownV s => simp [funcKind, fnNormal, fnHasVArg, fnUnsafeInit]

/-- A member loop that still has a type member ahead of it always aborts
with the `todo` panic of `compileType` (the other member kinds never fail
during the declare phase). -/
theorem declLoop_type_mem (link : List (String × String))
    (ms : List (String × Member)) :
    ∀ (acc : DeclState × List InitRec) (s : String) (p : Nat),
      (s, Member.typeM p) ∈ ms → declLoop link acc ms = .error "todo" := by
  induction ms with
  | nil => intro acc s p h; simp at h
  | cons hd tl ih =>
    intro acc s p h
    obtain ⟨s', m'⟩ := hd
    cases m' with
    | typeM q => simp [declLoop, declMember, compileType]
    | fnM f =>
      have hmem : (s, Member.typeM p) ∈ tl := by
        rcases List.mem_cons.mp h with h1 | h2
        · exact absurd h1 (by simp)
        · exact h2
      cases hf : f.typeParams <;>
        simp [declLoop, declMember, hf] <;> exact ih _ s p hmem
    | gblM g =>
      have hmem : (s, Member.typeM p) ∈ tl := by
        rcases List.mem_cons.mp h with h1 | h2
        · exact absurd h1 (by simp)
        · exact h2
      simp [declLoop, declMember]
      exact ih _ s p hmem
    | constM q =>
      have hmem : (s, Member.typeM p) ∈ tl := by
        rcases List.mem_cons.mp h with h1 | h2
        · exact absurd h1 (by simp)
        · exact h2
      simp [declLoop, declMember]
      exact ih _ s p hmem

/-- Claim C1 counterexample: a package whose sole member is a type is not
translated past that member — `NewPackage` aborts with the `todo` panic of
the unimplemented `compileType`, so the type is neither named nor given a
target-IR handle. -/
theorem claim_C1_counterexample :
    NewPackage ⟨"p", "p", [("T", Member.typeM 1)]⟩ [] = .error "todo" := rfl

/-- Claim C1 (amended): for every source package member that is a type,
the declare phase does not declare it; reaching any type member makes the
whole translation abort with the `todo` panic of the unimplemented
`compileType`, and no package is returned. -/
theorem claim_C1 (pkg : GoPackage) (link : List (String × String))
    (s : String) (p : Nat) (h : (s, Member.typeM p) ∈ pkg.members) :
    NewPackage pkg link = .error "todo" := by
  have hmem : (s, Member.typeM p) ∈ sortMembers pkg.members :=
    (List.perm_insertionSort memberLE pkg.members).mem_iff.mpr h
  have hd := declLoop_type_mem link (sortMembers pkg.members)
    (emptyDecl, []) s p hmem
  simp [NewPackage, hd]

/-- Claim C1 amended-theorem witness at a concrete package. -/
theorem claim_C1_witness :
    NewPackage ⟨"q", "q",
      [("g", Member.gblM ⟨"g", "q", "int", 1⟩), ("T", Member.typeM 2)]⟩ []
      = .error "todo" :=
  claim_C1 _ [] "T" 2 (by decide)

/-- Claim C9: a call whose callee classifies as `fnUnsafeInit` produces
zero target-IR operations (state untouched, nothing resolved, the zero
expression returned), and a generic (non-instantiated) function member is
skipped by the declare loop: no declaration and no deferred body. -/
theorem claim_C9 :
    (∀ (env : Env) (st : EmitState) (id : Nat) (callee : GoValue)
       (args : GoValueList), lookupCache st.bvals id = none →
       funcKind callee = fnUnsafeInit →
       compileIV env st id (.call callee args) = .ok (.nilE, st))
  ∧ (∀ (link : List (String × String)) (ds : DeclState)
       (inits : List InitRec) (s : String) (f : GoFunction),
       f.typeParams = true →
       declMember link (ds, inits) (s, .fnM f) = .ok (ds, inits)) := by
  constructor
  · intro env st id callee args hc hk
    rw [compileIV, hc]
    simp [hk]
  · intro link ds inits s f hf
    simp [declMember, hf]

/-- Claim C9 witness: a concrete `unsafe.init` call site and a concrete
generic function member. -/
theorem claim_C9_witness :
    compileIV ⟨[], [], []⟩ ⟨none, 0, [], [], [], 0⟩ 3
      (.call (.fnVal ⟨"init", "unsafe", false, []⟩) .nil)
      = .ok (.nilE, ⟨none, 0, [], [], [], 0⟩)
  ∧ declMember [] (⟨[], []⟩, [])
      ("f", .fnM ⟨⟨"f", "p", false, []⟩, [], true, [], 5⟩)
      = .ok (⟨[], []⟩, []) :=
  ⟨claim_C9.1 _ _ 3 _ .nil rfl rfl, claim_C9.2 [] _ [] "f" _ rfl⟩

/-- Spine induction for argument lists (the `induction` tactic cannot use
the recursor of the mutual family directly). -/
theorem GoValueList.spineInd {motive : GoValueList → Prop}
    (hnil : motive .nil)
    (hcons : ∀ v vs, motive vs → motive (.cons v vs)) :
    ∀ vs, motive vs
  | .nil => hnil
  | .cons v vs => hcons v vs (GoValueList.spineInd hnil hcons vs)

theorem GoValueList.length_append (xs ys : GoValueList) :
    (xs.append ys).length = xs.length + ys.length := by
  induction xs using GoValueList.spineInd with
  | hnil => simp [GoValueList.append, GoValueList.length]
  | hcons v vs ih =>
    simp only [GoValueList.append, GoValueList.length, ih]
    omega

/-- Lowering the first `length vs` arguments of `vs ++ rest` lowers
exactly `vs` and leaves `rest` unconsumed. -/
theorem compileValuesAux_append (env : Env) (vs : GoValueList) :
    ∀ (st : EmitState) (rest : GoValueList),
      compileValuesAux env st (vs.append rest) vs.length =
        match compileValuesAux env st vs vs.length with
        | .error e => .error e
        | .ok (es, _, st1) => .ok (es, rest, st1) := by
  induction vs using GoValueList.spineInd with
  | hnil =>
    intro st rest
    simp [GoValueList.append, GoValueList.length, compileValuesAux]
  | hcons v vs ih =>
    intro st rest
    simp only [GoValueList.append, GoValueList.length, compileValuesAux]
    cases compileValue env st v with
    | error e => rfl
    | ok p =>
      obtain ⟨x, st1⟩ := p
      simp only []
      rw [ih st1 rest]
      cases compileValuesAux env st1 vs vs.length with
      | error e => rfl
      | ok t => obtain ⟨es, r, st2⟩ := t; rfl

/-- A variadic call's argument list splits into the fully lowered
non-variadic front and the trailing argument handed to `compileVArg`. -/
theorem compileValues_snoc (env : Env) (st : EmitState) (vs : GoValueList)
    (last : GoValue) :
    compileValues env st (vs.append (.cons last .nil)) fnHasVArg =
      match compileValues env st vs fnNormal with
      | .error e => .error e
      | .ok (es, st1) => compileVArg st1 es last := by
  have hlen : (vs.append (.cons last .nil)).length = vs.length + 1 := by
    rw [GoValueList.length_append]; rfl
  simp only [compileValues, hlen, fnHasVArg, fnNormal]
  norm_num
  rw [compileValuesAux_append env vs st (.cons last .nil)]
  cases compileValuesAux env st vs vs.length with
  | error e => rfl
  | ok t => obtain ⟨es, r, st1⟩ := t; rfl

/-- Claim C4: for a call to a `fnHasVArg` callee, a trailing argument
that is a constant carrying no value contributes zero extra expressions —
the argument list of the emitted call is exactly the lowered non-variadic
front — and any other trailing-argument shape fails with the `todo`
panic of `compileVArg` instead of being approximated. -/
theorem claim_C4 :
    (∀ (st : EmitState) (ret : List Expr) (t : Typ),
       compileVArg st ret (.constVal ⟨none, t⟩) = .ok (ret, st))
  ∧ (∀ (st : EmitState) (ret : List Expr) (v : GoValue),
       (∀ t, v ≠ .constVal ⟨none, t⟩) →
       compileVArg st ret v = .error "todo")
  ∧ (∀ (env : Env) (st : EmitState) (vs : GoValueList) (t : Typ),
       compileValues env st
           (vs.append (.cons (.constVal ⟨none, t⟩) .nil)) fnHasVArg
         = compileValues env st vs fnNormal) := by
  refine ⟨fun st ret t => rfl, ?_, ?_⟩
  · intro st ret v hv
    cases v with
    | constVal c =>
      obtain ⟨cv, ct⟩ := c
      cases cv with
      | none => exact absurd rfl (hv ct)
      | some s => rfl
    | iv id k => rfl
    | param a b => rfl
    | fnVal fr => rfl
    | gblVal g => rfl
    | unknownV s => rfl
  · intro env st vs t
    rw [compileValues_snoc]
    cases compileValues env st vs fnNormal with
    | error e => rfl
    | ok p => obtain ⟨es, st1⟩ := p; rfl

/-- Claim C4 witness: concrete instances of the three conjuncts. -/
theorem claim_C4_witness :
    compileVArg ⟨none, 0, [], [], [], 0⟩ [] (.constVal ⟨none, "int"⟩)
      = .ok ([], ⟨none, 0, [], [], [], 0⟩)
  ∧ compileVArg ⟨none, 0, [], [], [], 0⟩ [] (.unknownV "*ssa.MakeSlice")
      = .error "todo"
  ∧ compileValues ⟨[], [], []⟩ ⟨none, 0, [], [], [], 0⟩
      (GoValueList.cons (.constVal ⟨some "7", "int"⟩)
        (.cons (.constVal ⟨none, "[]any"⟩) .nil)) fnHasVArg
      = compileValues ⟨[], [], []⟩ ⟨none, 0, [], [], [], 0⟩
        (GoValueList.cons (.constVal ⟨some "7", "int"⟩) .nil) fnNormal :=
  ⟨claim_C4.1 _ [] "int",
   claim_C4.2.1 _ [] _ (fun t h => by cases h),
   claim_C4.2.2 ⟨[], [], []⟩ _
     (GoValueList.cons (.constVal ⟨some "7", "int"⟩) .nil) "[]any"⟩

/-- Claim C10: argument lowering for a `fnHasVArg` call computes the
non-variadic count as the argument count minus the classifier tag value
(which is 1); the front is lowered positionally in order and exactly the
last argument goes to variadic packing; on an empty argument list the
negative slice length fails, so the code relies on every such call
carrying its trailing variadic slot argument. -/
theorem claim_C10 :
    (fnHasVArg = 1 ∧ fnNormal = 0 ∧ fnUnsafeInit = 2)
  ∧ (∀ (env : Env) (st : EmitState),
       compileValues env st .nil fnHasVArg =
         .error "runtime error: makeslice: len out of range")
  ∧ (∀ (env : Env) (st : EmitState) (vs : GoValueList) (last : GoValue),
       compileValues env st (vs.append (.cons last .nil)) fnHasVArg =
         match compileValues env st vs fnNormal with
         | .error e => .error e
         | .ok (es, st1) => compileVArg st1 es last) := by
  refine ⟨⟨rfl, rfl, rfl⟩, fun env st => rfl, ?_⟩
  intro env st vs last
  exact compileValues_snoc env st vs last

/-- A value-producing instruction found in the block-value cache resolves
to the cached expression with no effect on the builder state. -/
theorem compileIV_cached (env : Env) (st : EmitState) (id : Nat)
    (k : IVKind) (e : Expr) (h : lookupCache st.bvals id = some e) :
    compileIV env st id k = .ok (e, st) := by
  cases k <;> rw [compileIV, h]

/-- Unfolding of the uncached `binO` case of `compileIV`. -/
theorem compileIV_binO (env : Env) (st : EmitState) (id : Nat)
    (op : String) (x y : GoValue) (hc : lookupCache st.bvals id = none) :
    compileIV env st id (.binO op x y) =
      match compileValue env st x with
      | .error e => .error e
      | .ok (xe, st1) =>
        match compileValue env st1 y with
        | .error e => .error e
        | .ok (ye, st2) =>
          let (r, st3) := emitExpr st2 (.binOpO op xe ye)
          .ok (r, { st3 with bvals := (id, r) :: st3.bvals }) := by
  rw [compileIV, hc]

/-- Unfolding of the uncached `unO` case of `compileIV`. -/
theorem compileIV_unO (env : Env) (st : EmitState) (id : Nat)
    (op : String) (x : GoValue) (hc : lookupCache st.bvals id = none) :
    compileIV env st id (.unO op x) =
      match compileValue env st x with
      | .error e => .error e
      | .ok (xe, st1) =>
        let (r, st2) := emitExpr st1 (.unOpO op xe)
        .ok (r, { st2 with bvals := (id, r) :: st2.bvals }) := by
  rw [compileIV, hc]

/-- Unfolding of the uncached `idxAddr` case of `compileIV`. -/
theorem compileIV_idxAddr (env : Env) (st : EmitState) (id : Nat)
    (x idx : GoValue) (hc : lookupCache st.bvals id = none) :
    compileIV env st id (.idxAddr x idx) =
      match compileValue env st x with
      | .error e => .error e
      | .ok (xe, st1) =>
        match compileValue env st1 idx with
        | .error e => .error e
        | .ok (ie, st2) =>
          let (r, st3) := emitExpr st2 (.idxAddrO xe ie)
          .ok (r, { st3 with bvals := (id, r) :: st3.bvals }) := by
  rw [compileIV, hc]

/-- Unfolding of the uncached `allocI` case of `compileIV`. -/
theorem compileIV_allocI (env : Env) (st : EmitState) (id : Nat)
    (t : Typ) (heap : Bool) (hc : lookupCache st.bvals id = none) :
    compileIV env st id (.allocI t heap) =
      (let (r, st1) := emitExpr st (.allocO t heap)
       .ok (r, { st1 with bvals := (id, r) :: st1.bvals })) := by
  rw [compileIV, hc]

/-- Claim C6: within one block every value-producing instruction is
lowered at most once — a successful lowering leaves the instruction
resolvable to the same expression with no further change to the builder
state (first lowering cached, later resolutions served from the cache,
the unsafe-init early return emitting nothing either way) — and the
block-value cache is replaced by a fresh empty one at the start of every
block, so no cached expression survives into another block. -/
theorem claim_C6 :
    (∀ (env : Env) (st : EmitState) (id : Nat) (k : IVKind) (e : Expr)
       (st' : EmitState), compileIV env st id k = .ok (e, st') →
       compileIV env st' id k = .ok (e, st'))
  ∧ (∀ (env : Env) (st : EmitState) (blk : GoBlock) (doInit : Bool),
       compileBlock env st blk doInit =
         compileBlock env { st with bvals := [] } blk doInit) := by
  constructor
  · intro env st id k e st' h
    cases hc : lookupCache st.bvals id with
    | some v =>
      rw [compileIV_cached env st id k v hc] at h
      simp only [Except.ok.injEq, Prod.mk.injEq] at h
      obtain ⟨rfl, rfl⟩ := h
      exact compileIV_cached _ _ _ _ _ hc
    | none =>
      cases k with
      | call callee args =>
        by_cases hk : funcKind callee = fnUnsafeInit
        · rw [compileIV, hc, if_pos hk] at h
          simp only [Except.ok.injEq, Prod.mk.injEq] at h
          obtain ⟨rfl, rfl⟩ := h
          rw [compileIV, hc]
          exact if_pos hk
        · rw [compileIV_call env st id callee args hc hk] at h
          cases hcv : compileValue env st callee with
          | error e1 => simp [hcv] at h
          | ok p =>
            obtain ⟨fe, st1⟩ := p
            simp only [hcv] at h
            cases hvs : compileValues env st1 args (funcKind callee) with
            | error e2 => simp [hvs] at h
            | ok q =>
              obtain ⟨argEs, st2⟩ := q
              simp only [hvs, emitExpr, Except.ok.injEq, Prod.mk.injEq] at h
              obtain ⟨rfl, rfl⟩ := h
              exact compileIV_cached _ _ _ _ _ (by simp [lookupCache])
      | binO op x y =>
        rw [compileIV_binO env st id op x y hc] at h
        cases hx : compileValue env st x with
        | error e1 => simp [hx] at h
        | ok p =>
          obtain ⟨xe, st1⟩ := p
          simp only [hx] at h
          cases hy : compileValue env st1 y with
          | error e2 => simp [hy] at h
          | ok q =>
            obtain ⟨ye, st2⟩ := q
            simp only [hy, emitExpr, Except.ok.injEq, Prod.mk.injEq] at h
            obtain ⟨rfl, rfl⟩ := h
            exact compileIV_cached _ _ _ _ _ (by simp [lookupCache])
      | unO op x =>
        rw [compileIV_unO env st id op x hc] at h
        cases hx : compileValue env st x with
        | error e1 => simp [hx] at h
        | ok p =>
          obtain ⟨xe, st1⟩ := p
          simp only [hx, emitExpr, Except.ok.injEq, Prod.mk.injEq] at h
          obtain ⟨rfl, rfl⟩ := h
          exact compileIV_cached _ _ _ _ _ (by simp [lookupCache])
      | idxAddr x idx =>
        rw [compileIV_idxAddr env st id x idx hc] at h
        cases hx : compileValue env st x with
        | error e1 => simp [hx] at h
        | ok p =>
          obtain ⟨xe, st1⟩ := p
          simp only [hx] at h
          cases hi : compileValue env st1 idx with
          | error e2 => simp [hi] at h
          | ok q =>
            obtain ⟨ie, st2⟩ := q
            simp only [hi, emitExpr, Except.ok.injEq, Prod.mk.injEq] at h
            obtain ⟨rfl, rfl⟩ := h
            exact compileIV_cached _ _ _ _ _ (by simp [lookupCache])
      | allocI t heap =>
        rw [compileIV_allocI env st id t heap hc] at h
        simp only [emitExpr, Except.ok.injEq, Prod.mk.injEq] at h
        obtain ⟨rfl, rfl⟩ := h
        exact compileIV_cached _ _ _ _ _ (by simp [lookupCache])
      | unknownIV kind =>
        rw [compileIV, hc] at h
        exact absurd h (by simp)
  · intro env st blk doInit
    rfl

/-- Claim C6 witness: a concrete binary operation already in the cache
resolves to the cached register with the state unchanged, and a concrete
block build ignores the incoming cache. -/
theorem claim_C6_witness :
    compileIV ⟨[], [], []⟩
      ⟨some "p.f", 0, [(9, .reg 4)], [], [], 5⟩ 9
      (.binO "+" (.constVal ⟨some "1", "int"⟩) (.constVal ⟨some "2", "int"⟩))
      = .ok (.reg 4, ⟨some "p.f", 0, [(9, .reg 4)], [], [], 5⟩)
  ∧ compileBlock ⟨[], [], []⟩ ⟨some "p.f", 0, [(9, .reg 4)], [], [], 5⟩
      ⟨2, []⟩ false
      = compileBlock ⟨[], [], []⟩
        ⟨some "p.f", 0, [], [], [], 5⟩ ⟨2, []⟩ false :=
  ⟨claim_C6.1 ⟨[], [], []⟩ ⟨some "p.f", 0, [(9, .reg 4)], [], [], 5⟩ 9
     (.binO "+" (.constVal ⟨some "1", "int"⟩) (.constVal ⟨some "2", "int"⟩))
     (.reg 4) ⟨some "p.f", 0, [(9, .reg 4)], [], [], 5⟩ rfl,
   claim_C6.2 ⟨[], [], []⟩ ⟨some "p.f", 0, [(9, .reg 4)], [], [], 5⟩
     ⟨2, []⟩ false⟩

/-- Body building with no initializer-call injection, following the
spec's words that only the entry block of the program-entry function
receives the aggregated-initializer call: every block is built with
`doInit = false`. -/
def compileBlocksPlain (env : Env) (st : EmitState) :
    List GoBlock → Except String EmitState
  | [] => .ok st
  | blk :: blks =>
    match compileBlock env st blk false with
    | .error e => .error e
    | .ok (_, st1) => compileBlocksPlain env st1 blks

/-- Away from the entry block of the function named `main`, the block
loop builds every block plainly (no injected initializer call). -/
theorem compileBlocksAux_plain (env : Env) (name : String)
    (blks : List GoBlock) :
    ∀ (st : EmitState) (i : Nat), name ≠ "main" ∨ i ≠ 0 →
      compileBlocksAux env st name blks i = compileBlocksPlain env st blks := by
  induction blks with
  | nil => intro st i h; rfl
  | cons b bs ih =>
    intro st i h
    have hflag : (i == 0 && name == "main") = false := by
      rcases h with h | h
      · simp [h]
      · simp [h]
    rw [compileBlocksAux, hflag]
    rw [compileBlocksPlain]
    cases compileBlock env st b false with
    | error e => rfl
    | ok p =>
      obtain ⟨_, st1⟩ := p
      exact ih st1 (i + 1) (Or.inr (Nat.succ_ne_zero i))

/-- Claim C7: when the program-entry function's entry block is built, the
call to the aggregated package initializer `main.init` is emitted as the
very first operation of that block, before any of the block's own
source-derived instructions (conjuncts 1 and 2); every block built at a
nonzero position, and every block of a function not named `main`, is
built with no injected call (conjuncts 3 and 4). -/
theorem claim_C7 :
    (∀ (st : EmitState) (blk : GoBlock),
       ((emitExpr { st with curBlk := blk.index, bvals := [] }
           (.callO (.fnE "main.init") [])).2).ops =
         st.ops ++ [⟨st.curFn.getD "", blk.index, .callO (.fnE "main.init") []⟩])
  ∧ (∀ (env : Env) (st : EmitState) (blk : GoBlock),
       compileBlock env st blk true =
         compileBlock env
           ((emitExpr { st with curBlk := blk.index, bvals := [] }
              (.callO (.fnE "main.init") [])).2) blk false)
  ∧ (∀ (env : Env) (st : EmitState) (name : String) (blks : List GoBlock)
       (i : Nat), name ≠ "main" ∨ i ≠ 0 →
       compileBlocksAux env st name blks i = compileBlocksPlain env st blks)
  ∧ (∀ (env : Env) (st : EmitState) (b : GoBlock) (blks : List GoBlock),
       compileBlocksAux env st "main" (b :: blks) 0 =
         match compileBlock env st b true with
         | .error e => .error e
         | .ok (_, st1) => compileBlocksPlain env st1 blks) := by
  refine ⟨fun st blk => rfl, fun env st blk => rfl,
    fun env st name blks i => compileBlocksAux_plain env name blks st i, ?_⟩
  intro env st b blks
  rw [compileBlocksAux]
  norm_num
  cases compileBlock env st b true with
  | error e => rfl
  | ok p =>
    obtain ⟨_, st1⟩ := p
    exact compileBlocksAux_plain env "main" blks st1 1 (Or.inr one_ne_zero)

/-- Claim C7 witness: concrete instances — the injected call is the first
operation of the entry block of `main`, and a block of another function
is built plainly. -/
theorem claim_C7_witness :
    compileBlock ⟨[], ["main"], []⟩ ⟨some "main", 0, [], [], [], 0⟩ ⟨0, []⟩
      true =
      compileBlock ⟨[], ["main"], []⟩
        ((emitExpr { (⟨some "main", 0, [], [], [], 0⟩ : EmitState) with
            curBlk := 0, bvals := ([] : List (Nat × Expr)) }
          (.callO (.fnE "main.init") [])).2) ⟨0, []⟩ false
  ∧ compileBlocksAux ⟨[], ["p.f"], []⟩ ⟨some "p.f", 0, [], [], [], 0⟩ "p.f"
      [⟨0, []⟩] 0 =
      compileBlocksPlain ⟨[], ["p.f"], []⟩ ⟨some "p.f", 0, [], [], [], 0⟩
        [⟨0, []⟩]
  ∧ compileBlocksAux ⟨[], ["main"], []⟩ ⟨some "main", 0, [], [], [], 0⟩
      "main" [⟨0, []⟩] 0 =
      match compileBlock ⟨[], ["main"], []⟩ ⟨some "main", 0, [], [], [], 0⟩
        ⟨0, []⟩ true with
      | .error e => .error e
      | .ok (_, st1) => compileBlocksPlain ⟨[], ["main"], []⟩ st1 [] :=
  ⟨claim_C7.2.1 ⟨[], ["main"], []⟩ ⟨some "main", 0, [], [], [], 0⟩ ⟨0, []⟩,
   claim_C7.2.2.1 ⟨[], ["p.f"], []⟩ ⟨some "p.f", 0, [], [], [], 0⟩ "p.f"
     [⟨0, []⟩] 0 (Or.inl (by decide)),
   claim_C7.2.2.2 ⟨[], ["main"], []⟩ ⟨some "main", 0, [], [], [], 0⟩
     ⟨0, []⟩ []⟩

/-- The non-generic function members of a member list, in order (the
functions the declare loop declares and defers). -/
def declFns (ms : List (String × Member)) : List GoFunction :=
  ms.filterMap fun nm =>
    match nm.2 with
    | .fnM f => if f.typeParams then none else some f
    | _ => none

/-- The global members of a member list, in order (the globals the
declare loop declares and zero-initializes). -/
def declGbls (ms : List (String × Member)) : List GoGlobal :=
  ms.filterMap fun nm =>
    match nm.2 with
    | .gblM g => some g
    | _ => none

/-- A successful declare loop extends the declared-function registry and
the deferred-body queue by exactly the non-generic function members, and
the declared-global registry by exactly the global members (each with its
zero-value initializer), all in member order. -/
theorem declLoop_acc (link : List (String × String))
    (ms : List (String × Member)) :
    ∀ (d0 : DeclState) (i0 : List InitRec) (ds : DeclState)
      (inits : List InitRec),
      declLoop link (d0, i0) ms = .ok (ds, inits) →
      ds.funcs = d0.funcs ++ (declFns ms).map (fun f => funcName link f.ref)
      ∧ inits = i0 ++ (declFns ms).map
          (fun f => (⟨funcName link f.ref, f⟩ : InitRec))
      ∧ ds.globals = d0.globals ++ (declGbls ms).map
          (fun g => (⟨fullName g.pkgPath g.name, g.typ,
            .nullE g.typ⟩ : GlobalDecl)) := by
  induction ms with
  | nil =>
    intro d0 i0 ds inits h
    simp only [declLoop, Except.ok.injEq, Prod.mk.injEq] at h
    obtain ⟨rfl, rfl⟩ := h
    simp [declFns, declGbls]
  | cons nm tl ih =>
    intro d0 i0 ds inits h
    obtain ⟨s, m⟩ := nm
    cases m with
    | fnM f =>
      cases hf : f.typeParams with
      | true =>
        rw [declLoop, declMember] at h
        simp only [hf, if_true] at h
        obtain ⟨h1, h2, h3⟩ := ih d0 i0 ds inits h
        refine ⟨?_, ?_, ?_⟩ <;> simp [declFns, declGbls, hf, h1, h2, h3]
      | false =>
        rw [declLoop, declMember] at h
        simp only [hf, if_false] at h
        obtain ⟨h1, h2, h3⟩ := ih _ _ ds inits h
        refine ⟨?_, ?_, ?_⟩ <;>
          simp [declFns, declGbls, hf, h1, h2, h3, compileFunc]
    | typeM p =>
      rw [declLoop, declMember] at h
      simp [compileType] at h
    | gblM g =>
      rw [declLoop, declMember] at h
      obtain ⟨h1, h2, h3⟩ := ih _ _ ds inits h
      refine ⟨?_, ?_, ?_⟩ <;>
        simp [declFns, declGbls, h1, h2, h3, compileGlobal]
    | constM p =>
      rw [declLoop, declMember] at h
      obtain ⟨h1, h2, h3⟩ := ih _ _ ds inits h
      refine ⟨?_, ?_, ?_⟩ <;> simp [declFns, declGbls, h1, h2, h3]

/-- Claim C2: the translation is two-phase — after the declare loop over
the sorted members succeeds, the whole translation is exactly the
deferred bodies run in registration order against the completed
registries (conjunct 1); the deferred queue lists precisely the
non-generic function members in sorted member order (conjunct 2); every
such function member is declared before any body runs (conjunct 3);
every global member is declared, with its zero-value initializer, before
any body runs (conjunct 4); and a body's reference to any declared
sibling — function or global — resolves to the handle declared under
that sibling's target name, regardless of where the sibling appeared in
source order (conjuncts 5 and 6). -/
theorem claim_C2 (pkg : GoPackage) (link : List (String × String))
    (ds : DeclState) (inits : List InitRec)
    (h : declLoop link (emptyDecl, []) (sortMembers pkg.members) =
      .ok (ds, inits)) :
    (NewPackage pkg link =
       match runInits (mkEnv link ds) emptyEmit inits with
       | .error e => .error e
       | .ok es => .ok ⟨pkg.name, pkg.path, ds, es⟩)
  ∧ inits = (declFns (sortMembers pkg.members)).map
      (fun f => (⟨funcName link f.ref, f⟩ : InitRec))
  ∧ ds.funcs = (declFns (sortMembers pkg.members)).map
      (fun f => funcName link f.ref)
  ∧ ds.globals = (declGbls (sortMembers pkg.members)).map
      (fun g => (⟨fullName g.pkgPath g.name, g.typ,
        .nullE g.typ⟩ : GlobalDecl))
  ∧ (∀ (fr : FuncRef) (st : EmitState),
       ds.funcs.contains (funcName link fr) = true →
       compileValue (mkEnv link ds) st (.fnVal fr) =
         .ok (.fnE (funcName link fr), st))
  ∧ (∀ (gr : GlobalRef) (st : EmitState),
       (ds.globals.map (·.name)).contains (fullName gr.pkgPath gr.name)
         = true →
       compileValue (mkEnv link ds) st (.gblVal gr) =
         .ok (.gblE (fullName gr.pkgPath gr.name), st)) := by
  obtain ⟨h1, h2, h3⟩ := declLoop_acc link (sortMembers pkg.members)
    emptyDecl [] ds inits h
  refine ⟨?_, by simpa using h2, by simpa using h1, by simpa using h3,
    ?_, ?_⟩
  · simp [NewPackage, h]
  · intro fr st hc
    rw [compileValue]
    simp only [mkEnv]
    rw [if_pos hc]
  · intro gr st hc
    rw [compileValue]
    simp only [mkEnv]
    rw [if_pos hc]

/-- Claim C2 witness data: a package whose function `A` (earliest source
position) stores to the sibling global `g` and calls the sibling
function `B`, both declared later in source order. -/
def fnA : GoFunction :=
  ⟨⟨"A", "main", false, []⟩, [], false,
   [⟨0, [GoInstr.store (.gblVal ⟨"g", "main"⟩) (.constVal ⟨some "1", "int"⟩),
        GoInstr.ivInstr 1 (.call (.fnVal ⟨"B", "main", false, []⟩) .nil),
        GoInstr.ret []]⟩], 1⟩

/-- Claim C2 witness data: the sibling function declared later in source
order. -/
def fnB : GoFunction :=
  ⟨⟨"B", "main", false, []⟩, [], false, [⟨0, [GoInstr.ret []]⟩], 2⟩

/-- Claim C2 witness data: the sibling global declared last in source
order. -/
def gblG : GoGlobal := ⟨"g", "main", "int", 3⟩

/-- Claim C2 witness data: the three-member package, with the member list
iterated in an order unrelated to source order. -/
def pkgC2 : GoPackage :=
  ⟨"main", "main", [("B", .fnM fnB), ("g", .gblM gblG), ("A", .fnM fnA)]⟩

/-- Claim C2 witness: for the concrete package, the deferred queue holds
`A` then `B` in sorted order, the function and global registries are
complete (the global zero-initialized) before bodies run, and the
forward references from `A`'s body — to the function `B` and to the
global `g`, both declared later in source order — resolve to the handles
`fnE "main.B"` and `gblE "main.g"`. -/
theorem claim_C2_witness :
    (declFns (sortMembers pkgC2.members)).map
        (fun f => funcName [] f.ref) = ["main.A", "main.B"]
  ∧ (declGbls (sortMembers pkgC2.members)).map
        (fun g => (⟨fullName g.pkgPath g.name, g.typ,
          .nullE g.typ⟩ : GlobalDecl)) = [⟨"main.g", "int", .nullE "int"⟩]
  ∧ compileValue
      (mkEnv [] ⟨["main.A", "main.B"], [⟨"main.g", "int", .nullE "int"⟩]⟩)
      emptyEmit (.fnVal ⟨"B", "main", false, []⟩)
      = .ok (.fnE "main.B", emptyEmit)
  ∧ compileValue
      (mkEnv [] ⟨["main.A", "main.B"], [⟨"main.g", "int", .nullE "int"⟩]⟩)
      emptyEmit (.gblVal ⟨"g", "main"⟩)
      = .ok (.gblE "main.g", emptyEmit) := by
  have h := claim_C2 pkgC2 []
    ⟨["main.A", "main.B"], [⟨"main.g", "int", .nullE "int"⟩]⟩
    [⟨"main.A", fnA⟩, ⟨"main.B", fnB⟩] rfl
  exact ⟨h.2.2.1.symm, h.2.2.2.1.symm,
    h.2.2.2.2.1 ⟨"B", "main", false, []⟩ emptyEmit rfl,
    h.2.2.2.2.2 ⟨"g", "main"⟩ emptyEmit rfl⟩

/-- An instruction sweep that still has an unsupported instruction ahead
of it fails, whatever the builder state. -/
theorem compileInstrList_unknown (env : Env) (instrs : List GoInstr)
    (k : String) (hmem : GoInstr.unknownI k ∈ instrs) :
    ∀ st, ∃ e, compileInstrList env st instrs = .error e := by
  induction instrs with
  | nil => simp at hmem
  | cons i tl ih =>
    intro st
    rcases List.mem_cons.mp hmem with h1 | h2
    · subst h1
      exact ⟨_, rfl⟩
    · cases hc : compileInstr env st i with
      | error e => exact ⟨e, by rw [compileInstrList, hc]⟩
      | ok st1 =>
        obtain ⟨e, he⟩ := ih h2 st1
        exact ⟨e, by rw [compileInstrList, hc]; exact he⟩

/-- A block containing an unsupported instruction fails to build. -/
theorem compileBlock_unknown (env : Env) (st : EmitState) (blk : GoBlock)
    (doInit : Bool) (k : String) (hmem : GoInstr.unknownI k ∈ blk.instrs) :
    ∃ e, compileBlock env st blk doInit = .error e := by
  obtain ⟨e, he⟩ := compileInstrList_unknown env blk.instrs k hmem
    (if doInit then
      (emitExpr { st with curBlk := blk.index, bvals := [] }
        (.callO (.fnE "main.init") [])).2
     else { st with curBlk := blk.index, bvals := [] })
  exact ⟨e, by simp only [compileBlock, he]⟩

/-- A function body with an unsupported instruction in any of its blocks
fails to build, whatever the builder state and block position. -/
theorem compileBlocksAux_unknown (env : Env) (name : String)
    (blks : List GoBlock) (k : String)
    (h : ∃ blk ∈ blks, GoInstr.unknownI k ∈ blk.instrs) :
    ∀ (st : EmitState) (i : Nat),
      ∃ e, compileBlocksAux env st name blks i = .error e := by
  induction blks with
  | nil =>
    obtain ⟨blk, hb, _⟩ := h
    simp at hb
  | cons b bs ih =>
    intro st i
    obtain ⟨blk, hb, hki⟩ := h
    rcases List.mem_cons.mp hb with h1 | h2
    · subst h1
      obtain ⟨e, he⟩ := compileBlock_unknown env st blk
        (i == 0 && name == "main") k hki
      exact ⟨e, by rw [compileBlocksAux, he]⟩
    · cases hcb : compileBlock env st b (i == 0 && name == "main") with
      | error e => exact ⟨e, by rw [compileBlocksAux, hcb]⟩
      | ok p =>
        obtain ⟨a, st1⟩ := p
        obtain ⟨e, he⟩ := ih ⟨blk, h2, hki⟩ st1 (i + 1)
        exact ⟨e, by rw [compileBlocksAux, hcb]; exact he⟩

/-- A deferred body whose source function contains an unsupported
instruction fails when executed. -/
theorem runBody_unknown (env : Env) (st : EmitState) (r : InitRec)
    (k : String) (h : ∃ blk ∈ r.f.blocks, GoInstr.unknownI k ∈ blk.instrs) :
    ∃ e, runBody env st r = .error e := by
  have hne : r.f.blocks.isEmpty = false := by
    obtain ⟨blk, hb, _⟩ := h
    cases hbs : r.f.blocks with
    | nil => rw [hbs] at hb; simp at hb
    | cons x xs => rfl
  obtain ⟨e, he⟩ := compileBlocksAux_unknown env r.fname r.f.blocks k h
    { { st with curFn := some r.fname } with
      blocksMade := ({ st with curFn := some r.fname }).blocksMade ++
        [(r.fname, r.f.blocks.length)] } 0
  exact ⟨e, by simp only [runBody, hne, Bool.false_eq_true, if_false, he]⟩

/-- The deferred-body queue fails as a whole once any queued body's
source function contains an unsupported instruction. -/
theorem runInits_unknown (env : Env) (inits : List InitRec) (k : String)
    (h : ∃ r ∈ inits, ∃ blk ∈ r.f.blocks, GoInstr.unknownI k ∈ blk.instrs) :
    ∀ st, ∃ e, runInits env st inits = .error e := by
  induction inits with
  | nil =>
    obtain ⟨r, hr, _⟩ := h
    simp at hr
  | cons r0 rest ih =>
    intro st
    obtain ⟨r, hr, hblk⟩ := h
    rcases List.mem_cons.mp hr with h1 | h2
    · subst h1
      obtain ⟨e, he⟩ := runBody_unknown env st r k hblk
      exact ⟨e, by rw [runInits, he]⟩
    · cases hrb : runBody env st r0 with
      | error e => exact ⟨e, by rw [runInits, hrb]⟩
      | ok st1 =>
        obtain ⟨e, he⟩ := ih ⟨r, h2, hblk⟩ st1
        exact ⟨e, by rw [runInits, hrb]; exact he⟩

/-- A non-generic function member is listed among the declared-deferred
functions of its member list. -/
theorem mem_declFns (ms : List (String × Member)) (s : String)
    (f : GoFunction) (hmem : (s, Member.fnM f) ∈ ms)
    (hf : f.typeParams = false) : f ∈ declFns ms := by
  rw [declFns, List.mem_filterMap]
  exact ⟨(s, Member.fnM f), hmem, by simp [hf]⟩

/-- Claim C3: an instruction or value whose kind has no lowering rule
fails immediately with the unsupported kind named in the panic message
(conjuncts 1-3), and a package one of whose compiled functions contains
such an instruction fails to translate as a whole: `NewPackage` returns
an error and no package value (conjunct 4). -/
theorem claim_C3 :
    (∀ (env : Env) (st : EmitState) (kind : String),
       compileInstr env st (.unknownI kind) =
         .error ("compileInstr: unknown instr - " ++ kind ++ "\n"))
  ∧ (∀ (env : Env) (st : EmitState) (kind : String),
       compileValue env st (.unknownV kind) =
         .error ("compileValue: unknown value - " ++ kind ++ "\n"))
  ∧ (∀ (env : Env) (st : EmitState) (id : Nat) (kind : String),
       lookupCache st.bvals id = none →
       compileIV env st id (.unknownIV kind) =
         .error ("compileInstrAndValue: unknown instr - " ++ kind ++ "\n"))
  ∧ (∀ (pkg : GoPackage) (link : List (String × String)) (s : String)
       (f : GoFunction) (k : String),
       (s, Member.fnM f) ∈ pkg.members → f.typeParams = false →
       (∃ blk ∈ f.blocks, GoInstr.unknownI k ∈ blk.instrs) →
       ∃ e, NewPackage pkg link = .error e) := by
  refine ⟨fun env st kind => rfl, fun env st kind => rfl,
    fun env st id kind hc => by rw [compileIV, hc], ?_⟩
  intro pkg link s f k hmem hf hblk
  cases hdl : declLoop link (emptyDecl, []) (sortMembers pkg.members) with
  | error e => exact ⟨e, by simp [NewPackage, hdl]⟩
  | ok p =>
    obtain ⟨ds, inits⟩ := p
    obtain ⟨h1, h2, h3⟩ := declLoop_acc link (sortMembers pkg.members)
      emptyDecl [] ds inits hdl
    have hmem' : (s, Member.fnM f) ∈ sortMembers pkg.members :=
      (List.perm_insertionSort memberLE pkg.members).mem_iff.mpr hmem
    have hfd : f ∈ declFns (sortMembers pkg.members) :=
      mem_declFns _ s f hmem' hf
    have hinit : (⟨funcName link f.ref, f⟩ : InitRec) ∈ inits := by
      rw [h2]
      simp only [List.nil_append, List.mem_map]
      exact ⟨f, hfd, rfl⟩
    obtain ⟨e, he⟩ := runInits_unknown (mkEnv link ds) inits k
      ⟨⟨funcName link f.ref, f⟩, hinit, hblk⟩ emptyEmit
    exact ⟨e, by simp [NewPackage, hdl, he]⟩

/-- Claim C3 witness data: a package whose sole function contains an
instruction kind with no lowering rule. -/
def fnC3 : GoFunction :=
  ⟨⟨"f", "p", false, []⟩, [], false,
   [⟨0, [GoInstr.unknownI "*ssa.Panic"]⟩], 1⟩

/-- Claim C3 witness data: the package holding that function. -/
def pkgC3 : GoPackage := ⟨"p", "p", [("f", .fnM fnC3)]⟩

/-- Claim C3 witness: concrete unsupported constructs panic with their
kind in the message, and the concrete package containing one fails to
translate at all. -/
theorem claim_C3_witness :
    compileInstr ⟨[], [], []⟩ ⟨none, 0, [], [], [], 0⟩
      (.unknownI "*ssa.Panic") =
      .error "compileInstr: unknown instr - *ssa.Panic\n"
  ∧ compileValue ⟨[], [], []⟩ ⟨none, 0, [], [], [], 0⟩
      (.unknownV "*ssa.MakeInterface") =
      .error "compileValue: unknown value - *ssa.MakeInterface\n"
  ∧ compileIV ⟨[], [], []⟩ ⟨none, 0, [], [], [], 0⟩ 4
      (.unknownIV "*ssa.Phi") =
      .error "compileInstrAndValue: unknown instr - *ssa.Phi\n"
  ∧ (∃ e, NewPackage pkgC3 [] = .error e) :=
  ⟨claim_C3.1 ⟨[], [], []⟩ ⟨none, 0, [], [], [], 0⟩ "*ssa.Panic",
   claim_C3.2.1 ⟨[], [], []⟩ ⟨none, 0, [], [], [], 0⟩ "*ssa.MakeInterface",
   claim_C3.2.2.1 ⟨[], [], []⟩ ⟨none, 0, [], [], [], 0⟩ 4 "*ssa.Phi" rfl,
   claim_C3.2.2.2 pkgC3 [] "f" fnC3 "*ssa.Panic" (by decide) rfl
     ⟨⟨0, [GoInstr.unknownI "*ssa.Panic"]⟩, by decide, by decide⟩⟩

instance : IsTotal (String × Member) memberLE :=
  ⟨fun a b => Nat.le_total (memberPos a.2) (memberPos b.2)⟩

instance : IsTrans (String × Member) memberLE :=
  ⟨fun _ _ _ => Nat.le_trans⟩

/-- Strict position order on members (total on any member list whose
positions are pairwise distinct). -/
def memberLT (a b : String × Member) : Prop := memberPos a.2 < memberPos b.2

instance : IsAntisymm (String × Member) memberLT :=
  ⟨fun _ _ h1 h2 => absurd h2 (Nat.lt_asymm h1)⟩

/-- The member sort is determined by the member multiset alone when the
source positions are pairwise distinct: any two iteration orders of the
same members sort identically. -/
theorem sortMembers_eq_of_perm (l1 l2 : List (String × Member))
    (hp : l1.Perm l2)
    (hnd : (l1.map (fun nm => memberPos nm.2)).Nodup) :
    sortMembers l1 = sortMembers l2 := by
  have hp1 : (sortMembers l1).Perm l1 := List.perm_insertionSort memberLE l1
  have hp2 : (sortMembers l2).Perm l2 := List.perm_insertionSort memberLE l2
  have hps : (sortMembers l1).Perm (sortMembers l2) :=
    hp1.trans (hp.trans hp2.symm)
  have hs1 : List.Sorted memberLE (sortMembers l1) :=
    List.sorted_insertionSort memberLE l1
  have hs2 : List.Sorted memberLE (sortMembers l2) :=
    List.sorted_insertionSort memberLE l2
  have hnd1 : ((sortMembers l1).map (fun nm => memberPos nm.2)).Nodup :=
    ((hp1.map (fun nm => memberPos nm.2)).nodup_iff).mpr hnd
  have hnd2 : ((sortMembers l2).map (fun nm => memberPos nm.2)).Nodup :=
    (((hp2.trans hp.symm).map (fun nm => memberPos nm.2)).nodup_iff).mpr hnd
  have hne1 : (sortMembers l1).Pairwise
      (fun a b => memberPos a.2 ≠ memberPos b.2) :=
    List.pairwise_map.mp hnd1
  have hne2 : (sortMembers l2).Pairwise
      (fun a b => memberPos a.2 ≠ memberPos b.2) :=
    List.pairwise_map.mp hnd2
  have hlt1 : List.Sorted memberLT (sortMembers l1) :=
    (hs1.and hne1).imp fun hab => Nat.lt_of_le_of_ne hab.1 hab.2
  have hlt2 : List.Sorted memberLT (sortMembers l2) :=
    (hs2.and hne2).imp fun hab => Nat.lt_of_le_of_ne hab.1 hab.2
  exact List.eq_of_perm_of_sorted hps hlt1 hlt2

/-- Claim C8: translating the same source package (same name, path and
members with pairwise-distinct source positions) yields the identical
target-IR package — declarations, deferred order and emitted trace —
independently of the iteration order of the member map: members are
processed in ascending source-position order. -/
theorem claim_C8 (pkg1 pkg2 : GoPackage) (link : List (String × String))
    (hn : pkg1.name = pkg2.name) (hpath : pkg1.path = pkg2.path)
    (hm : pkg1.members.Perm pkg2.members)
    (hnd : (pkg1.members.map (fun nm => memberPos nm.2)).Nodup) :
    NewPackage pkg1 link = NewPackage pkg2 link := by
  have hs : sortMembers pkg1.members = sortMembers pkg2.members :=
    sortMembers_eq_of_perm _ _ hm hnd
  simp only [NewPackage, hs, hn, hpath]

/-- Claim C8 witness data: the same two members in two iteration orders. -/
def pkgC8a : GoPackage :=
  ⟨"m", "m", [("a", .gblM ⟨"a", "m", "int", 1⟩),
              ("b", .fnM ⟨⟨"b", "m", false, []⟩, [], false, [], 2⟩)]⟩

/-- Claim C8 witness data: the permuted iteration order. -/
def pkgC8b : GoPackage :=
  ⟨"m", "m", [("b", .fnM ⟨⟨"b", "m", false, []⟩, [], false, [], 2⟩),
              ("a", .gblM ⟨"a", "m", "int", 1⟩)]⟩

/-- Claim C8 witness: the two iteration orders of the same package
translate identically. -/
theorem claim_C8_witness : NewPackage pkgC8a [] = NewPackage pkgC8b [] :=
  claim_C8 pkgC8a pkgC8b [] rfl rfl (by decide) (by decide)

/-- Claim C5 witness: the three classifications at concrete callables. -/
theorem claim_C5_witness :
    funcKind (.fnVal ⟨"init", "unsafe", false, []⟩) = fnUnsafeInit
  ∧ funcKind (.fnVal ⟨"printf", "c", false, ["format", NameValist]⟩) =
      fnHasVArg
  ∧ funcKind (.fnVal ⟨"init", "unsafe", true, []⟩) = fnNormal :=
  ⟨(claim_C5 _).1.mpr ⟨_, rfl, rfl, rfl, rfl, rfl⟩,
   (claim_C5 _).2.1.mpr ⟨_, rfl, rfl, by simp, rfl⟩,
   (claim_C5 _).2.2.2 _ rfl rfl⟩

/-- Claim C10 witness: the negative-length failure on an empty variadic
argument list and the front/trailing split at a concrete call. -/
theorem claim_C10_witness :
    compileValues ⟨[], [], []⟩ ⟨none, 0, [], [], [], 0⟩ .nil fnHasVArg =
      .error "runtime error: makeslice: len out of range"
  ∧ compileValues ⟨[], [], []⟩ ⟨none, 0, [], [], [], 0⟩
      (.cons (.constVal ⟨some "1", "int"⟩)
        (.cons (.constVal ⟨none, "[]any"⟩) .nil)) fnHasVArg =
      match compileValues ⟨[], [], []⟩ ⟨none, 0, [], [], [], 0⟩
        (.cons (.constVal ⟨some "1", "int"⟩) .nil) fnNormal with
      | .error e => .error e
      | .ok (es, st1) => compileVArg st1 es (.constVal ⟨none, "[]any"⟩) :=
  ⟨claim_C10.2.1 ⟨[], [], []⟩ ⟨none, 0, [], [], [], 0⟩,
   claim_C10.2.2 ⟨[], [], []⟩ ⟨none, 0, [], [], [], 0⟩
     (.cons (.constVal ⟨some "1", "int"⟩) .nil) (.constVal ⟨none, "[]any"⟩)⟩

end Llgo
